import Mathlib

/-!
Verification of the outlinewiki-exporter scrape pipeline.

Shallow embedding of the Go source (`main.go` of the exporter): the retrying
page fetcher `fetch`, the pagination decision `shouldPaginate`, the pagination
driver `fetchAll`, and the per-scrape orchestration/aggregation `Collect`.

Modelling conventions:
* Go `int` becomes `Int`; lengths/counts that are `len(...)` in Go are `Nat`
  and are cast to `Int` where the Go code compares them with an `int` field.
* Timestamps are integral time units (`Int`); durations/delays are counted in
  the same units (Go uses `time.Second` as the base delay unit).
* The HTTP layer (`doFetch`) is abstracted by an oracle: for the retry wrapper
  an oracle from attempt index to outcome, for the pagination driver a finite
  association list from request path to response.  The request body sent by the
  Go code (`{"limit": .., "offset": 0}` on the first page, `{}` afterwards) is
  constructed but the abstract server is keyed on the path alone, exactly as
  the pagination logic of the source distinguishes requests.
* Go maps used as sets / tallies are modelled by lists with membership tests,
  preserving first-insertion semantics.
-/

namespace OutlineExporter

/-- Structure `Config` from the source (all fields kept; durations as integral units). -/
structure Config where
  OutlineAPIURL : String
  OutlineAPIKey : String
  ListenAddress : String
  MetricsPath : String
  ScrapeTimeout : Int
  PageLimit : Int
  Debug : Bool
deriving Repr, DecidableEq

/-- Structure `Collection` from the source (timestamps as integral unix-time units). -/
structure Collection where
  ID : String
  Name : String
  Description : String
  CreatedAt : Int
  UpdatedAt : Int
deriving Repr, DecidableEq

/-- Structure `Document` from the source. -/
structure Document where
  ID : String
  Title : String
  Text : String
  CreatedAt : Int
  UpdatedAt : Int
  PublishedAt : Int
  ArchivedAt : Int
  DeletedAt : Int
  Views : Int
  Revision : Int
  CollectionId : String
deriving Repr, DecidableEq

/-- Structure `User` from the source. -/
structure User where
  ID : String
  Name : String
  CreatedAt : Int
  LastActiveAt : Int
deriving Repr, DecidableEq

/-- Structure `Pagination` from the source. -/
structure Pagination where
  Limit : Int
  Offset : Int
  NextPath : String
deriving Repr, DecidableEq

/-- Structure `apiResp[T]` from the source: one decoded page. -/
structure apiResp (α : Type) where
  Data : List α
  Pagination : Pagination
deriving Repr, DecidableEq

/-! ## Whitespace trimming (Go `strings.TrimSpace`)

Go trims the Unicode white-space set (`unicode.IsSpace`): the ASCII spaces,
NEL, NBSP and the Unicode space separators. -/

/-- The character class trimmed by Go's `strings.TrimSpace`. -/
def isSpaceGo (c : Char) : Bool :=
  c.val == 9 || c.val == 10 || c.val == 11 || c.val == 12 || c.val == 13 ||
  c.val == 32 || c.val == 0x85 || c.val == 0xA0 || c.val == 0x1680 ||
  (0x2000 ≤ c.val && c.val ≤ 0x200A) ||
  c.val == 0x2028 || c.val == 0x2029 || c.val == 0x202F || c.val == 0x205F ||
  c.val == 0x3000

/-- Go `strings.TrimSpace`: drop leading and trailing white space. -/
def trimSpace (s : String) : String :=
  ⟨((s.data.dropWhile isSpaceGo).reverse.dropWhile isSpaceGo).reverse⟩

/-! ## Retryable-error test (Go `strings.Contains(err.Error(), ...)`) -/

/-- Test that `pat` occurs as a contiguous sublist of `s`. -/
def listContainsSub (pat s : List Char) : Bool :=
  s.tails.any (fun t => pat.isPrefixOf t)

/-- Go `strings.Contains s pat`. -/
def containsSub (s pat : String) : Bool :=
  listContainsSub pat.data s.data

/-- The retry condition of `fetch`:
`strings.Contains(err.Error(), "EOF") || strings.Contains(err.Error(), "timeout")`. -/
def retryable (msg : String) : Bool :=
  containsSub msg "EOF" || containsSub msg "timeout"

/-! ## The retry wrapper `fetch`

The Go loop runs `attempt = 0 .. maxRetries` (`maxRetries = 3`); before every
attempt but the first it sleeps `baseDelay * 2^(attempt-1)`.  A successful
`doFetch` returns immediately; a failing one retries only when
`attempt < maxRetries` and the error text is retryable, and otherwise returns
that error.  The `return fmt.Errorf("max retries exceeded")` after the loop is
kept in the model (`fetchLoop` past the bound).  `doFetch` is abstracted by an
oracle mapping the attempt index to that attempt's outcome.

`fetchLoop oracle maxRetries attempt` returns
`(delays slept, number of doFetch calls made, result)` for the part of the
loop starting at `attempt`. -/

def fetchLoop (oracle : Nat → Except String Unit) (maxRetries : Nat) :
    Nat → List Nat × Nat × Except String Unit
  | attempt =>
    if _h : attempt ≤ maxRetries then
      let delays : List Nat := if attempt = 0 then [] else [2 ^ (attempt - 1)]
      match oracle attempt with
      | Except.ok v => (delays, 1, Except.ok v)
      | Except.error e =>
        if attempt < maxRetries && retryable e then
          let rest := fetchLoop oracle maxRetries (attempt + 1)
          (delays ++ rest.1, rest.2.1 + 1, rest.2.2)
        else (delays, 1, Except.error e)
    else ([], 0, Except.error "max retries exceeded")
termination_by attempt => maxRetries + 1 - attempt
decreasing_by omega

/-- Function `fetch` from the source: the whole retry loop with `maxRetries = 3`,
starting at attempt 0. -/
def fetchGo (oracle : Nat → Except String Unit) : List Nat × Nat × Except String Unit :=
  fetchLoop oracle 3 0

/-! ## Pagination decision (`shouldPaginate`)

The receiver `e` is used only for debug logging in the source, so it is
dropped here.  Note that `exactLimit` compares the item count with the
*page-reported* `pagination.Limit` field, not with the configured
`Config.PageLimit`. -/

/-- Function `shouldPaginate` from the source. -/
def shouldPaginate (pagination : Pagination) (itemCount : Int) : Bool :=
  let hasNext := pagination.NextPath != ""
  let nonEmpty := trimSpace pagination.NextPath != ""
  let exactLimit := itemCount == pagination.Limit
  hasNext && nonEmpty && exactLimit

/-! ## Pagination driver (`fetchAll`)

The post-retry fetch of one page (`exporter.fetch` specialised to a decoded
`apiResp`) is abstracted by a finite server: an association list from request
path to that path's response (first match wins, as a real server answers a
path deterministically within one scrape).  A path the server has no entry
for fails, like an unreachable URL. -/

/-- A finite abstract server for one entity kind. -/
def Server (α : Type) : Type := List (String × Except String (apiResp α))

/-- Fetch one page from the abstract server. -/
def serverFetch (srv : Server α) (path : String) : Except String (apiResp α) :=
  match srv.find? (fun entry => entry.1 == path) with
  | some entry => entry.2
  | none => Except.error "connection refused"

/-- Instrumented result of the pagination loop: the accumulated items and
final error of the Go code, plus (for specification purposes) the trace of
paths actually fetched and the `Data` of every successfully fetched page,
in order. -/
structure LoopOut (α : Type) where
  items : List α
  err : Option String
  attempts : List String
  pages : List (List α)
deriving Repr, DecidableEq

/-- The `for nextPath != "" && strings.TrimSpace(nextPath) != ""` loop of
`fetchAll`, with explicit fuel (`none` = fuel exhausted; the termination
theorem shows `srv.length + 1` fuel always suffices).  State: accumulated
items, current page number, pending continuation path, visited-path set. -/
def fetchAllLoop (srv : Server α) :
    Nat → List α → Nat → String → List String → Option (LoopOut α)
  | 0, _, _, _, _ => none
  | fuel + 1, allItems, pageNumber, nextPath, seenPaths =>
    if (nextPath != "") && (trimSpace nextPath != "") then
      if seenPaths.contains nextPath then
        -- "Already seen path, stopping pagination": break out of the loop.
        some ⟨allItems, none, [], []⟩
      else
        match serverFetch srv nextPath with
        | Except.error e =>
          -- `return allItems, fmt.Errorf("fetch page %d: %w", pageNumber+1, err)`
          some ⟨allItems,
            some ("fetch page " ++ toString (pageNumber + 1) ++ ": " ++ e),
            [nextPath], []⟩
        | Except.ok response =>
          let newItems := allItems ++ response.Data
          if shouldPaginate response.Pagination (Int.ofNat response.Data.length) then
            match fetchAllLoop srv fuel newItems (pageNumber + 1)
                response.Pagination.NextPath (nextPath :: seenPaths) with
            | none => none
            | some out =>
              some ⟨out.items, out.err, nextPath :: out.attempts,
                response.Data :: out.pages⟩
          else
            some ⟨newItems, none, [nextPath], [response.Data]⟩
    else
      some ⟨allItems, none, [], []⟩

/-- Instrumented result of a whole `fetchAll` run: `items`/`err` are the Go
return values, `attempts` all fetched paths (first page included), `pages`
the `Data` of all successfully fetched pages. -/
structure RunOut (α : Type) where
  items : List α
  err : Option String
  attempts : List String
  pages : List (List α)
deriving Repr, DecidableEq

/-- Function `fetchAll` from the source.  The first page is requested at `path` with
body `{"limit": cfg.PageLimit, "offset": 0}` (the abstract server is keyed on
the path, so the body is not re-examined); the visited set is seeded with
`path` before the loop starts. -/
def fetchAllRun (cfg : Config) (srv : Server α) (path : String) (fuel : Nat) :
    Option (RunOut α) :=
  let _firstBody := (cfg.PageLimit, (0 : Int))
  match serverFetch srv path with
  | Except.error e => some ⟨[], some ("fetch first page: " ++ e), [path], []⟩
  | Except.ok firstResponse =>
    if shouldPaginate firstResponse.Pagination (Int.ofNat firstResponse.Data.length) then
      match fetchAllLoop srv fuel firstResponse.Data 1
          firstResponse.Pagination.NextPath [path] with
      | none => none
      | some out =>
        some ⟨out.items, out.err, path :: out.attempts, firstResponse.Data :: out.pages⟩
    else
      some ⟨firstResponse.Data, none, [path], [firstResponse.Data]⟩

/-- The Go-visible result of `fetchAll`: `([]T, error)`.  Fuel `srv.length+1`
always suffices (termination theorem), so the `none` branch is unreachable. -/
def fetchAllTotal (cfg : Config) (srv : Server α) (path : String) :
    List α × Option String :=
  match fetchAllRun cfg srv path (srv.length + 1) with
  | some out => (out.items, out.err)
  | none => ([], some "fuel exhausted")

/-! ## Aggregation inside `Collect`

`documentCounts` is the tally map built from the *raw* (not yet de-duplicated)
`documents` slice; a Go map lookup of an absent key yields 0.
`uniqueDocuments` is a map keyed by the string `document.ID + ":" +
document.CollectionId`; insertion keeps the first document seen under a key.
It is modelled as the list of first occurrences, in input order (the map's
contents; Go's own iteration order over the map is unspecified). -/

/-- Value `documentCounts[cid]` after the tally loop over the raw document list. -/
def documentCounts (documents : List Document) (cid : String) : Nat :=
  (documents.filter (fun d => d.CollectionId == cid)).length

/-- The `uniqueKey` of a document: `document.ID + ":" + document.CollectionId`. -/
def uniqueKey (d : Document) : String :=
  d.ID ++ ":" ++ d.CollectionId

/-- The `uniqueDocuments` insertion loop, carrying the set of keys already in
the map: a document whose key was seen is skipped, otherwise it is kept. -/
def dedupAux (seen : List String) : List Document → List Document
  | [] => []
  | d :: rest =>
    if seen.contains (uniqueKey d) then dedupAux seen rest
    else d :: dedupAux (uniqueKey d :: seen) rest

/-- The de-duplicated document list: contents of `uniqueDocuments`, keyed by
`uniqueKey`, first occurrence winning. -/
def dedupDocs (documents : List Document) : List Document :=
  dedupAux [] documents

/-- One emitted metric sample (constructor per `prometheus.Desc`/collector of
the source, carrying the label values and the sample value). -/
inductive Metric where
  | up (v : Int)
  | scrapeSuccessTs (t : Int)
  | collectionsTotal (n : Nat)
  | collectionDocumentsCount (cid name : String) (n : Nat)
  | collectionAge (cid name : String) (age : Int)
  | documentsTotal (n : Nat)
  | documentRevisions (did cid : String) (n : Int)
  | documentViews (did cid : String) (n : Int)
  | documentAge (did cid : String) (age : Int)
  | documentSize (did cid : String) (n : Nat)
  | documentUpdateAge (did cid : String) (age : Int)
  | usersTotal (n : Nat)
  | userLastActive (uid name : String) (v : Int)
  | userAge (uid name : String) (v : Int)
  | scrapeDuration (v : Int)
  | scrapeErrorsTotal (n : Nat)
deriving Repr, DecidableEq

/-- The `if len(collections) > 0` block of `Collect`. -/
def collectionBlock (now : Int) (collections : List Collection)
    (documents : List Document) : List Metric :=
  if collections.length > 0 then
    Metric.collectionsTotal collections.length ::
      collections.flatMap (fun c =>
        [Metric.collectionDocumentsCount c.ID c.Name (documentCounts documents c.ID),
         Metric.collectionAge c.ID c.Name (now - c.CreatedAt)])
  else []

/-- The `if len(documents) > 0` block of `Collect`: totals and per-document
samples over the de-duplicated documents. -/
def documentBlock (now : Int) (documents : List Document) : List Metric :=
  if documents.length > 0 then
    Metric.documentsTotal (dedupDocs documents).length ::
      (dedupDocs documents).flatMap (fun d =>
        [Metric.documentRevisions d.ID d.CollectionId d.Revision,
         Metric.documentViews d.ID d.CollectionId d.Views,
         Metric.documentAge d.ID d.CollectionId (now - d.CreatedAt),
         Metric.documentSize d.ID d.CollectionId d.Text.utf8ByteSize,
         Metric.documentUpdateAge d.ID d.CollectionId (now - d.UpdatedAt)])
  else []

/-- The `if len(users) > 0` block of `Collect`. -/
def userBlock (now : Int) (users : List User) : List Metric :=
  if users.length > 0 then
    Metric.usersTotal users.length ::
      users.flatMap (fun u =>
        [Metric.userLastActive u.ID u.Name (now - u.LastActiveAt),
         Metric.userAge u.ID u.Name (now - u.CreatedAt)])
  else []

/-- Observable outcome of one `Collect` cycle: the emitted samples in emission
order, the error counter after this cycle's increments, the cycle's success
flag, and whether the duplicate-documents warning was logged. -/
structure ScrapeOut where
  metrics : List Metric
  errorsTotal : Nat
  success : Bool
  dupWarning : Bool
deriving Repr, DecidableEq

/-- Method `Collect` from the source, as a function of the three fetch results
(`fetchAll` returns both a list and an error; the Go code keeps the partial
list even when the error is non-nil).  `now` stands for `time.Now()`,
`errorsBefore` for the error counter's value entering the cycle, `duration`
for the measured elapsed time. -/
def collect (now : Int) (errorsBefore : Nat) (duration : Int)
    (collectionsRes : List Collection × Option String)
    (documentsRes : List Document × Option String)
    (usersRes : List User × Option String) : ScrapeOut :=
  let collections := collectionsRes.1
  let documents := documentsRes.1
  let users := usersRes.1
  let success := collectionsRes.2.isNone && documentsRes.2.isNone && usersRes.2.isNone
  let errorsTotal := errorsBefore +
    (if collectionsRes.2.isSome then 1 else 0) +
    (if documentsRes.2.isSome then 1 else 0) +
    (if usersRes.2.isSome then 1 else 0)
  let head := if success then [Metric.up 1, Metric.scrapeSuccessTs now]
              else [Metric.up 0]
  { metrics := head ++ collectionBlock now collections documents ++
      documentBlock now documents ++ userBlock now users ++
      [Metric.scrapeDuration duration, Metric.scrapeErrorsTotal errorsTotal],
    errorsTotal := errorsTotal,
    success := success,
    dupWarning :=
      (documents.length > 0) && (documents.length != (dedupDocs documents).length) }

/-- One whole `Collect` cycle driven from abstract servers: the three
`fetchAll` calls are issued unconditionally, in source order (collections,
then documents, then users), each against its own endpoint. -/
def collectRun (cfg : Config) (srvC : Server Collection) (srvD : Server Document)
    (srvU : Server User) (now : Int) (errorsBefore : Nat) (duration : Int) :
    ScrapeOut :=
  let collectionsRes := fetchAllTotal cfg srvC "/api/collections.list"
  let documentsRes := fetchAllTotal cfg srvD "/api/documents.list"
  let usersRes := fetchAllTotal cfg srvU "/api/users.list"
  collect now errorsBefore duration collectionsRes documentsRes usersRes

/-! ## Concrete fixtures used by counterexamples and witnesses -/

/-- A configuration with the default page limit 100. -/
def cfgTest : Config :=
  ⟨"http://localhost:3000", "key", ":9877", "/metrics", 30, 100, false⟩

/-- A first page of 5 items whose *reported* limit is 5 (smaller than the
configured limit 100) and which carries a continuation path. -/
def pageShort : apiResp Nat := ⟨[1, 2, 3, 4, 5], ⟨5, 0, "/p2"⟩⟩

/-- The page behind the continuation path of `pageShort`. -/
def pageAfterShort : apiResp Nat := ⟨[6], ⟨5, 0, ""⟩⟩

/-- Server returning `pageShort` first, then `pageAfterShort`. -/
def srvShort : Server Nat := [("/a", Except.ok pageShort), ("/p2", Except.ok pageAfterShort)]

/-! ## C1 — what the continuation decision actually compares -/

/-- C1 counterexample.  The claim says a page with fewer items than the
*configured* page-size limit is always treated as the final page.  Here the
configured limit is 100, the first page has only 5 items and a continuation
path, yet the driver fetches a second page (both paths appear in the request
trace and the items of both pages are returned), because the code compares
the item count with the page's *reported* limit (5), not the configured
one. -/
theorem c1_counterexample_short_page_still_paginates :
    cfgTest.PageLimit = 100 ∧
    serverFetch srvShort "/a" = Except.ok pageShort ∧
    pageShort.Data.length = 5 ∧
    pageShort.Pagination.NextPath ≠ "" ∧
    fetchAllRun cfgTest srvShort "/a" 3 =
      some ⟨[1, 2, 3, 4, 5, 6], none, ["/a", "/p2"], [[1, 2, 3, 4, 5], [6]]⟩ := by
  refine ⟨rfl, rfl, rfl, by decide, rfl⟩

/-- C1 (amended): the pagination decision `shouldPaginate` continues if and
only if the page's continuation path is non-empty and non-whitespace AND the
number of items on the page exactly equals the page's *reported* limit field
(`pagination.Limit`), not the configured page-size limit; in particular a page
whose item count differs from its reported limit is treated as final even when
a continuation path is present. -/
theorem shouldPaginate_characterisation (pagination : Pagination) (itemCount : Int) :
    shouldPaginate pagination itemCount = true ↔
      (pagination.NextPath ≠ "" ∧ trimSpace pagination.NextPath ≠ "" ∧
        itemCount = pagination.Limit) := by
  simp [shouldPaginate, Bool.and_eq_true, bne_iff_ne, beq_iff_eq, and_assoc]

/-! ## Loop invariants of the pagination driver -/

/-- Items accumulated by the loop are the incoming accumulator followed by the
data of the pages the loop fetched successfully, in order. -/
theorem fetchAllLoop_items_eq (srv : Server α) :
    ∀ (fuel : Nat) (acc : List α) (pn : Nat) (np : String) (seen : List String)
      (out : LoopOut α),
      fetchAllLoop srv fuel acc pn np seen = some out →
      out.items = acc ++ out.pages.flatten := by
  intro fuel
  induction fuel with
  | zero => intro acc pn np seen out h; simp [fetchAllLoop] at h
  | succ fuel ih =>
    intro acc pn np seen out h
    simp only [fetchAllLoop] at h
    split at h
    · split at h
      · cases h; simp
      · cases hfetch : serverFetch srv np with
        | error e => simp only [hfetch] at h; cases h; simp
        | ok response =>
          simp only [hfetch] at h
          split at h
          · cases hrec : fetchAllLoop srv fuel (acc ++ response.Data) (pn + 1)
                response.Pagination.NextPath (np :: seen) with
            | none => simp only [hrec] at h; exact (Option.noConfusion h)
            | some out' =>
              simp only [hrec] at h
              cases h
              have hi := ih _ _ _ _ _ hrec
              simp [hi]
          · cases h; simp
    · cases h; simp

/-- Every path fetched by the loop is fresh: the attempt trace is
duplicate-free and disjoint from the incoming visited set. -/
theorem fetchAllLoop_attempts_fresh (srv : Server α) :
    ∀ (fuel : Nat) (acc : List α) (pn : Nat) (np : String) (seen : List String)
      (out : LoopOut α),
      fetchAllLoop srv fuel acc pn np seen = some out →
      out.attempts.Nodup ∧ ∀ p ∈ out.attempts, p ∉ seen := by
  intro fuel
  induction fuel with
  | zero => intro acc pn np seen out h; simp [fetchAllLoop] at h
  | succ fuel ih =>
    intro acc pn np seen out h
    simp only [fetchAllLoop] at h
    split at h
    · split at h <;> rename_i hseen
      · cases h; simp
      · have hnp : np ∉ seen := by
          simpa using hseen
        cases hfetch : serverFetch srv np with
        | error e =>
          simp only [hfetch] at h; cases h
          simpa using hnp
        | ok response =>
          simp only [hfetch] at h
          split at h
          · cases hrec : fetchAllLoop srv fuel (acc ++ response.Data) (pn + 1)
                response.Pagination.NextPath (np :: seen) with
            | none => simp only [hrec] at h; exact (Option.noConfusion h)
            | some out' =>
              simp only [hrec] at h
              cases h
              obtain ⟨hnd, hfresh⟩ := ih _ _ _ _ _ hrec
              constructor
              · refine List.nodup_cons.mpr ⟨?_, hnd⟩
                intro hmem
                exact hfresh np hmem (List.mem_cons_self np seen)
              · intro p hp
                rcases List.mem_cons.mp hp with hq | hq
                · subst hq; exact hnp
                · intro hpseen
                  exact hfresh p hq (List.mem_cons_of_mem _ hpseen)
          · cases h
            simpa using hnp
    · cases h; simp

/-! ## C8 — partial results survive a later page failure -/

/-- C8: whenever `fetchAll` returns (in particular on a page-fetch failure
after the first page), the returned item list is exactly the concatenation of
the data of all successfully fetched pages, so the items accumulated before
the failing page are returned together with the failure, not discarded. -/
theorem fetchAll_keeps_earlier_pages (cfg : Config) (srv : Server α) (path : String)
    (fuel : Nat) (out : RunOut α) (e : String)
    (hrun : fetchAllRun cfg srv path fuel = some out) (_herr : out.err = some e) :
    out.items = out.pages.flatten := by
  simp only [fetchAllRun] at hrun
  cases hfetch : serverFetch srv path with
  | error e0 => simp only [hfetch] at hrun; cases hrun; simp
  | ok first =>
    simp only [hfetch] at hrun
    split at hrun
    · cases hrec : fetchAllLoop srv fuel first.Data 1 first.Pagination.NextPath [path] with
      | none => simp only [hrec] at hrun; exact Option.noConfusion hrun
      | some out' =>
        simp only [hrec] at hrun
        cases hrun
        have hi := fetchAllLoop_items_eq srv fuel first.Data 1
          first.Pagination.NextPath [path] out' hrec
        simp [hi]
    · cases hrun; simp

/-- Server whose first page advertises continuation path `/bad`, which the
server does not serve: the second page fetch fails. -/
def srvFail : Server Nat := [("/a", Except.ok ⟨[1, 2], ⟨2, 0, "/bad"⟩⟩)]

/-- The run of `fetchAll` against `srvFail`: both items of page 1 are kept
next to the page-2 failure. -/
def runOutFail : RunOut Nat :=
  ⟨[1, 2], some "fetch page 2: connection refused", ["/a", "/bad"], [[1, 2]]⟩

/-- C8 witness: concrete run where page 2 fails after a successful page 1. -/
theorem fetchAll_keeps_earlier_pages_witness :
    runOutFail.items = runOutFail.pages.flatten :=
  fetchAll_keeps_earlier_pages cfgTest srvFail "/a" 2 runOutFail
    "fetch page 2: connection refused" rfl rfl

/-! ## C10 — no path is requested twice in one run -/

/-- C10: within one `fetchAll` run the full request trace (the initial list
path followed by every continuation path fetched) contains no duplicates: the
initial path is pre-seeded into the visited set before the loop, and every
loop iteration checks-and-marks its path before fetching, so a server-supplied
continuation path equal to the initial path or to any previously fetched path
stops pagination before the repeated request is issued. -/
theorem fetchAll_requests_distinct (cfg : Config) (srv : Server α) (path : String)
    (fuel : Nat) (out : RunOut α)
    (hrun : fetchAllRun cfg srv path fuel = some out) :
    out.attempts.Nodup := by
  simp only [fetchAllRun] at hrun
  cases hfetch : serverFetch srv path with
  | error e0 => simp only [hfetch] at hrun; cases hrun; simp
  | ok first =>
    simp only [hfetch] at hrun
    split at hrun
    · cases hrec : fetchAllLoop srv fuel first.Data 1 first.Pagination.NextPath [path] with
      | none => simp only [hrec] at hrun; exact Option.noConfusion hrun
      | some out' =>
        simp only [hrec] at hrun
        cases hrun
        obtain ⟨hnd, hfresh⟩ := fetchAllLoop_attempts_fresh srv fuel _ _ _ _ _ hrec
        refine List.nodup_cons.mpr ⟨?_, hnd⟩
        intro hmem
        exact hfresh path hmem (by simp)
    · cases hrun; simp

/-- Server whose only page points its continuation path back at the initial
path, i.e. a pagination cycle. -/
def srvCycle : Server Nat := [("/a", Except.ok ⟨[1], ⟨1, 0, "/a"⟩⟩)]

/-- The run of `fetchAll` against `srvCycle`: the cycle guard stops after one
request even though `shouldPaginate` asked to continue. -/
def runOutCycle : RunOut Nat := ⟨[1], none, ["/a"], [[1]]⟩

/-- C10 witness: with a server that cycles back to the initial path, the
request trace stays duplicate-free (only one request is issued). -/
theorem fetchAll_requests_distinct_witness : runOutCycle.attempts.Nodup :=
  fetchAll_requests_distinct cfgTest srvCycle "/a" 2 runOutCycle rfl

/-! ## C3 — termination of the pagination loop

The loop measure: how many of the server's request paths are not yet in the
visited set.  Every loop iteration that recurses has fetched a fresh path that
the server serves, so the measure strictly decreases. -/

/-- Number of server paths not yet visited. -/
def unseenCount (srv : Server α) (seen : List String) : Nat :=
  ((srv.map Prod.fst).filter (fun q => !(seen.contains q))).length

/-- A successfully served path is one of the server's paths. -/
theorem mem_keys_of_serverFetch_ok {srv : Server α} {path : String} {r : apiResp α}
    (h : serverFetch srv path = Except.ok r) : path ∈ srv.map Prod.fst := by
  unfold serverFetch at h
  cases hf : srv.find? (fun entry => entry.1 == path) with
  | none => simp only [hf] at h; exact Except.noConfusion h
  | some entry =>
    have hp := List.find?_some hf
    have hm := List.mem_of_find?_eq_some hf
    have hfst : entry.1 = path := by simpa using hp
    exact hfst ▸ List.mem_map_of_mem Prod.fst hm

/-- Marking a fresh served path as visited strictly decreases the measure. -/
theorem filter_unseen_cons_lt (l : List String) (np : String) (seen : List String)
    (hmem : np ∈ l) (hns : np ∉ seen) :
    (l.filter (fun q => !((np :: seen).contains q))).length <
      (l.filter (fun q => !(seen.contains q))).length := by
  induction l with
  | nil => cases hmem
  | cons a l ih =>
    by_cases ha : a = np
    · subst ha
      have h1 : (!((a :: seen).contains a)) = false := by simp
      have h2 : (!(seen.contains a)) = true := by
        simpa using hns
      rw [List.filter_cons, List.filter_cons, h1, h2]
      rw [if_neg (by simp), if_pos rfl]
      have hmono : (l.filter (fun q => !((a :: seen).contains q))).length ≤
          (l.filter (fun q => !(seen.contains q))).length := by
        refine List.Sublist.length_le (List.monotone_filter_right l ?_)
        intro q hq
        simp only [List.contains_cons, Bool.not_eq_true', Bool.or_eq_false_iff] at hq ⊢
        simpa using hq.2
      simp only [List.length_cons]
      omega
    · have hmem' : np ∈ l := by
        rcases List.mem_cons.mp hmem with h | h
        · exact absurd h.symm ha
        · exact h
      have hbeq : (a == np) = false := by
        simpa using ha
      have heq : ((np :: seen).contains a) = (seen.contains a) := by
        simp only [List.contains_cons, hbeq, Bool.false_or]
      rw [List.filter_cons, List.filter_cons, heq]
      by_cases hk : (!(seen.contains a)) = true
      · rw [if_pos hk, if_pos hk]
        simp only [List.length_cons]
        exact Nat.succ_lt_succ (ih hmem')
      · rw [if_neg hk, if_neg hk]
        exact ih hmem'

/-- Restatement with `unseenCount` of the strict decrease. -/
theorem unseenCount_cons_lt {srv : Server α} {np : String} {seen : List String}
    (hkey : np ∈ srv.map Prod.fst) (hns : np ∉ seen) :
    unseenCount srv (np :: seen) < unseenCount srv seen :=
  filter_unseen_cons_lt _ np seen hkey hns

/-- Fuel larger than the measure never runs out. -/
theorem fetchAllLoop_total (srv : Server α) :
    ∀ (fuel : Nat) (seen : List String) (acc : List α) (pn : Nat) (np : String),
      unseenCount srv seen < fuel →
      fetchAllLoop srv fuel acc pn np seen ≠ none := by
  intro fuel
  induction fuel with
  | zero => intro seen acc pn np h; exact absurd h (Nat.not_lt_zero _)
  | succ fuel ih =>
    intro seen acc pn np hlt
    simp only [fetchAllLoop]
    split
    · split
      · simp
      · rename_i hcond hseen
        cases hfetch : serverFetch srv np with
        | error e => simp
        | ok response =>
          simp only [hfetch]
          split
          · have hnp : np ∉ seen := by simpa using hseen
            have hkey : np ∈ srv.map Prod.fst := mem_keys_of_serverFetch_ok hfetch
            have hdec := unseenCount_cons_lt hkey hnp
            have hrec := ih (np :: seen) (acc ++ response.Data) (pn + 1)
              response.Pagination.NextPath (by omega)
            cases hres : fetchAllLoop srv fuel (acc ++ response.Data) (pn + 1)
                response.Pagination.NextPath (np :: seen) with
            | none => exact absurd hres hrec
            | some out => simp [hres]
          · simp
    · simp

/-- The loop issues at most `unseenCount + 1` requests (the `+ 1` is a final
request that may fail or end pagination). -/
theorem fetchAllLoop_attempts_le (srv : Server α) :
    ∀ (fuel : Nat) (seen : List String) (acc : List α) (pn : Nat) (np : String)
      (out : LoopOut α),
      fetchAllLoop srv fuel acc pn np seen = some out →
      out.attempts.length ≤ unseenCount srv seen + 1 := by
  intro fuel
  induction fuel with
  | zero => intro seen acc pn np out h; simp [fetchAllLoop] at h
  | succ fuel ih =>
    intro seen acc pn np out h
    simp only [fetchAllLoop] at h
    split at h
    · split at h <;> rename_i hseen
      · cases h; simp
      · cases hfetch : serverFetch srv np with
        | error e => simp only [hfetch] at h; cases h; simp
        | ok response =>
          simp only [hfetch] at h
          split at h
          · cases hrec : fetchAllLoop srv fuel (acc ++ response.Data) (pn + 1)
                response.Pagination.NextPath (np :: seen) with
            | none => simp only [hrec] at h; exact Option.noConfusion h
            | some out' =>
              simp only [hrec] at h
              cases h
              have hnp : np ∉ seen := by simpa using hseen
              have hkey : np ∈ srv.map Prod.fst := mem_keys_of_serverFetch_ok hfetch
              have hdec := unseenCount_cons_lt hkey hnp
              have hle := ih _ _ _ _ _ hrec
              simp only [List.length_cons]
              omega
          · cases h; simp
    · cases h; simp

/-- C3: for every finite server-returned page family, `fetchAll` terminates:
fuel `srv.length + 1` suffices for the pagination loop (so the run produces a
result), and the total number of page requests issued, the initial one
included, is at most `srv.length + 1` — each loop iteration either consumes a
previously-unseen path served by the server or is the last, so the iteration
count is bounded by the number of distinct paths the server returns. -/
theorem fetchAll_terminates (cfg : Config) (srv : Server α) (path : String) :
    ∃ out : RunOut α, fetchAllRun cfg srv path (srv.length + 1) = some out ∧
      out.attempts.length ≤ srv.length + 1 := by
  simp only [fetchAllRun]
  cases hfetch : serverFetch srv path with
  | error e => exact ⟨_, rfl, by simp⟩
  | ok first =>
    simp only [hfetch]
    split
    · have hkey : path ∈ srv.map Prod.fst := mem_keys_of_serverFetch_ok hfetch
      have hlt : unseenCount srv [path] < srv.length := by
        have h0 := filter_unseen_cons_lt (srv.map Prod.fst) path [] hkey (by simp)
        have hfull : ((srv.map Prod.fst).filter
            (fun q => !(([] : List String).contains q))).length = srv.length := by
          simp
        unfold unseenCount
        omega
      have htot := fetchAllLoop_total srv (srv.length + 1) [path] first.Data 1
        first.Pagination.NextPath (by omega)
      cases hres : fetchAllLoop srv (srv.length + 1) first.Data 1
          first.Pagination.NextPath [path] with
      | none => exact absurd hres htot
      | some out' =>
        refine ⟨_, rfl, ?_⟩
        have hle := fetchAllLoop_attempts_le srv _ _ _ _ _ _ hres
        simp only [List.length_cons]
        omega
    · exact ⟨_, rfl, by simp⟩

/-! ## Step lemmas for the retry loop -/

/-- The delays slept before attempt `a` (none before the initial attempt,
`2^(a-1)` time-units afterwards). -/
def attemptDelays (a : Nat) : List Nat :=
  if a = 0 then [] else [2 ^ (a - 1)]

/-- A successful attempt returns at once. -/
theorem fetchLoop_step_ok (oracle : Nat → Except String Unit) (a : Nat)
    (ha : a ≤ 3) (v : Unit) (ho : oracle a = Except.ok v) :
    fetchLoop oracle 3 a = (attemptDelays a, 1, Except.ok v) := by
  rw [fetchLoop]
  rw [dif_pos ha]
  simp only [ho, attemptDelays]

/-- A retryable failure below the retry bound sleeps and moves on. -/
theorem fetchLoop_step_retry (oracle : Nat → Except String Unit) (a : Nat)
    (ha : a < 3) (e : String) (he : oracle a = Except.error e)
    (hr : retryable e = true) :
    fetchLoop oracle 3 a =
      (attemptDelays a ++ (fetchLoop oracle 3 (a + 1)).1,
       (fetchLoop oracle 3 (a + 1)).2.1 + 1,
       (fetchLoop oracle 3 (a + 1)).2.2) := by
  rw [fetchLoop]
  rw [dif_pos (by omega : a ≤ 3)]
  simp only [he]
  rw [if_pos (by simp [ha, hr])]
  simp [attemptDelays]

/-- A failure that is non-retryable, or one at the final allowed attempt, is
returned as is. -/
theorem fetchLoop_step_stop (oracle : Nat → Except String Unit) (a : Nat)
    (ha : a ≤ 3) (e : String) (he : oracle a = Except.error e)
    (hstop : (decide (a < 3) && retryable e) = false) :
    fetchLoop oracle 3 a = (attemptDelays a, 1, Except.error e) := by
  rw [fetchLoop]
  rw [dif_pos ha]
  simp only [he]
  rw [if_neg (by simp [hstop])]
  simp [attemptDelays]

/-! ## C5 — retry count, backoff and immediate propagation -/

/-- C5: the retry policy of `fetch`.  When every attempt fails with a
connection-truncation/timeout-looking error, the operation makes exactly 4
total attempts (the initial attempt plus 3 retries) with backoff delays of 1,
2 and 4 time-units before giving up; and ANY failure that does not look like
truncation or timeout — whether it happens at the initial attempt or at any
later attempt reached after earlier retryable failures — is returned
immediately: the operation stops at attempt `i` with `i + 1` total attempts,
having slept only the delays `2^0 .. 2^(i-1)` owed to the earlier retries,
and no further attempt is made. -/
theorem fetch_retry_policy (oracle : Nat → Except String Unit) :
    ((∀ i, i ≤ 3 → ∃ e, oracle i = Except.error e ∧ retryable e = true) →
      (fetchGo oracle).1 = [1, 2, 4] ∧ (fetchGo oracle).2.1 = 4) ∧
    (∀ i, i ≤ 3 →
      (∀ j, j < i → ∃ e, oracle j = Except.error e ∧ retryable e = true) →
      ∀ e, oracle i = Except.error e → retryable e = false →
        fetchGo oracle =
          ((List.range i).map (fun j => 2 ^ j), i + 1, Except.error e)) := by
  constructor
  · intro h
    obtain ⟨e0, he0, hr0⟩ := h 0 (by omega)
    obtain ⟨e1, he1, hr1⟩ := h 1 (by omega)
    obtain ⟨e2, he2, hr2⟩ := h 2 (by omega)
    obtain ⟨e3, he3, hr3⟩ := h 3 (by omega)
    have s3 := fetchLoop_step_stop oracle 3 (by omega) e3 he3 (by simp)
    have s2 := fetchLoop_step_retry oracle 2 (by omega) e2 he2 hr2
    have s1 := fetchLoop_step_retry oracle 1 (by omega) e1 he1 hr1
    have s0 := fetchLoop_step_retry oracle 0 (by omega) e0 he0 hr0
    rw [s3] at s2
    rw [s2] at s1
    rw [s1] at s0
    unfold fetchGo
    rw [s0]
    simp [attemptDelays]
  · intro i hi hprev e he hr
    interval_cases i
    · have s0 := fetchLoop_step_stop oracle 0 (by omega) e he (by simp [hr])
      unfold fetchGo
      rw [s0]
      simp [attemptDelays]
    · obtain ⟨e0, he0, hr0⟩ := hprev 0 (by omega)
      have s1 := fetchLoop_step_stop oracle 1 (by omega) e he (by simp [hr])
      have s0 := fetchLoop_step_retry oracle 0 (by omega) e0 he0 hr0
      rw [s1] at s0
      unfold fetchGo
      rw [s0]
      simp [attemptDelays, List.range_succ]
    · obtain ⟨e0, he0, hr0⟩ := hprev 0 (by omega)
      obtain ⟨e1, he1, hr1⟩ := hprev 1 (by omega)
      have s2 := fetchLoop_step_stop oracle 2 (by omega) e he (by simp [hr])
      have s1 := fetchLoop_step_retry oracle 1 (by omega) e1 he1 hr1
      have s0 := fetchLoop_step_retry oracle 0 (by omega) e0 he0 hr0
      rw [s2] at s1
      rw [s1] at s0
      unfold fetchGo
      rw [s0]
      simp [attemptDelays, List.range_succ]
    · obtain ⟨e0, he0, hr0⟩ := hprev 0 (by omega)
      obtain ⟨e1, he1, hr1⟩ := hprev 1 (by omega)
      obtain ⟨e2, he2, hr2⟩ := hprev 2 (by omega)
      have s3 := fetchLoop_step_stop oracle 3 (by omega) e he (by simp)
      have s2 := fetchLoop_step_retry oracle 2 (by omega) e2 he2 hr2
      have s1 := fetchLoop_step_retry oracle 1 (by omega) e1 he1 hr1
      have s0 := fetchLoop_step_retry oracle 0 (by omega) e0 he0 hr0
      rw [s3] at s2
      rw [s2] at s1
      rw [s1] at s0
      unfold fetchGo
      rw [s0]
      simp [attemptDelays, List.range_succ]

/-- C5 witness: with every attempt a "timeout" failure, 4 attempts and delays
1, 2, 4; a "status 404" failure at the initial attempt is returned after a
single attempt with no delay; and a "status 404" failure at attempt 1,
reached after a retryable "timeout" at attempt 0, is returned immediately
with 2 total attempts and only the single backoff delay 1 slept. -/
theorem fetch_retry_policy_witness :
    ((fetchGo (fun _ => Except.error "timeout")).1 = [1, 2, 4] ∧
      (fetchGo (fun _ => Except.error "timeout")).2.1 = 4) ∧
    fetchGo (fun _ => Except.error "status 404: not found") =
      ([], 1, Except.error "status 404: not found") ∧
    fetchGo (fun n => if n = 0 then Except.error "timeout"
        else Except.error "status 404: not found") =
      ([1], 2, Except.error "status 404: not found") := by
  refine ⟨(fetch_retry_policy (fun _ => Except.error "timeout")).1
      (fun _ _ => ⟨"timeout", rfl, by decide⟩), ?_, ?_⟩
  · exact (fetch_retry_policy (fun _ => Except.error "status 404: not found")).2
      0 (by omega) (fun j hj => absurd hj (by omega))
      "status 404: not found" rfl (by decide)
  · exact (fetch_retry_policy (fun n => if n = 0 then Except.error "timeout"
        else Except.error "status 404: not found")).2
      1 (by omega)
      (by
        intro j hj
        interval_cases j
        exact ⟨"timeout", rfl, by decide⟩)
      "status 404: not found" rfl (by decide)

/-! ## C6 — what exhausting the retry budget actually returns -/

/-- Evaluation of the whole retry loop when every attempt fails with
"timeout". -/
theorem fetchGo_all_timeout :
    fetchGo (fun _ => Except.error "timeout") =
      ([1, 2, 4], 4, Except.error "timeout") := by
  have s3 := fetchLoop_step_stop (fun _ => Except.error "timeout") 3 (by omega)
    "timeout" rfl (by decide)
  have s2 := fetchLoop_step_retry (fun _ => Except.error "timeout") 2 (by omega)
    "timeout" rfl (by decide)
  have s1 := fetchLoop_step_retry (fun _ => Except.error "timeout") 1 (by omega)
    "timeout" rfl (by decide)
  have s0 := fetchLoop_step_retry (fun _ => Except.error "timeout") 0 (by omega)
    "timeout" rfl (by decide)
  rw [s3] at s2
  rw [s2] at s1
  rw [s1] at s0
  unfold fetchGo
  rw [s0]
  simp [attemptDelays]

/-- C6 counterexample: every attempt fails with the retryable error "timeout"
and the retry budget is exhausted, yet the operation returns the underlying
"timeout" failure — not the terminal failure "max retries exceeded" that the
claim promises. -/
theorem c6_counterexample_not_max_retries_message :
    fetchGo (fun _ => Except.error "timeout") =
      ([1, 2, 4], 4, Except.error "timeout") ∧
    ("timeout" : String) ≠ "max retries exceeded" :=
  ⟨fetchGo_all_timeout, by decide⟩

/-- C6 (amended): when every attempt of `fetch` fails with a retryable
(truncation/timeout) condition and the retry budget is exhausted, the
operation returns the *final attempt's* underlying failure; the
`"max retries exceeded"` return after the loop is unreachable, because at the
final allowed attempt the error is returned directly. -/
theorem fetch_exhausted_returns_last_error (oracle : Nat → Except String Unit)
    (h : ∀ i, i ≤ 3 → ∃ e, oracle i = Except.error e ∧ retryable e = true)
    (e3 : String) (he3 : oracle 3 = Except.error e3) :
    (fetchGo oracle).2.2 = Except.error e3 := by
  obtain ⟨e0, he0, hr0⟩ := h 0 (by omega)
  obtain ⟨e1, he1, hr1⟩ := h 1 (by omega)
  obtain ⟨e2, he2, hr2⟩ := h 2 (by omega)
  have s3 := fetchLoop_step_stop oracle 3 (by omega) e3 he3 (by simp)
  have s2 := fetchLoop_step_retry oracle 2 (by omega) e2 he2 hr2
  have s1 := fetchLoop_step_retry oracle 1 (by omega) e1 he1 hr1
  have s0 := fetchLoop_step_retry oracle 0 (by omega) e0 he0 hr0
  rw [s3] at s2
  rw [s2] at s1
  rw [s1] at s0
  unfold fetchGo
  rw [s0]

/-- C6 witness: with every attempt failing as "unexpected EOF", the returned
failure is that final underlying error. -/
theorem fetch_exhausted_returns_last_error_witness :
    (fetchGo (fun _ => Except.error "unexpected EOF")).2.2 =
      Except.error "unexpected EOF" :=
  fetch_exhausted_returns_last_error (fun _ => Except.error "unexpected EOF")
    (fun _ _ => ⟨"unexpected EOF", rfl, by decide⟩) "unexpected EOF" rfl

/-! ## Properties of the document de-duplication -/

/-- De-duplication never grows the list. -/
theorem dedupAux_length_le :
    ∀ (seen : List String) (docs : List Document),
      (dedupAux seen docs).length ≤ docs.length := by
  intro seen docs
  induction docs generalizing seen with
  | nil => simp [dedupAux]
  | cons d rest ih =>
    simp only [dedupAux]
    split
    · exact Nat.le_trans (ih seen) (by simp)
    · simpa using ih (uniqueKey d :: seen)

/-- Every document surviving de-duplication has a key outside the incoming
seen-set. -/
theorem dedupAux_keys_fresh :
    ∀ (seen : List String) (docs : List Document) (d : Document),
      d ∈ dedupAux seen docs → uniqueKey d ∉ seen := by
  intro seen docs
  induction docs generalizing seen with
  | nil => intro d h; simp [dedupAux] at h
  | cons d0 rest ih =>
    intro d h
    simp only [dedupAux] at h
    split at h
    · exact ih seen d h
    · rename_i hcont
      rcases List.mem_cons.mp h with h | h
      · subst h
        simpa using hcont
      · intro hseen
        exact ih (uniqueKey d0 :: seen) d h (List.mem_cons_of_mem _ hseen)

/-- The keys of the de-duplicated list are pairwise distinct. -/
theorem dedupAux_keys_nodup :
    ∀ (seen : List String) (docs : List Document),
      ((dedupAux seen docs).map uniqueKey).Nodup := by
  intro seen docs
  induction docs generalizing seen with
  | nil => simp [dedupAux]
  | cons d rest ih =>
    simp only [dedupAux]
    split
    · exact ih seen
    · simp only [List.map_cons, List.nodup_cons]
      refine ⟨?_, ih (uniqueKey d :: seen)⟩
      intro hmem
      rcases List.mem_map.mp hmem with ⟨x, hx, hkey⟩
      exact dedupAux_keys_fresh _ _ x hx (hkey ▸ List.mem_cons_self _ _)

/-- A list whose keys are distinct and avoid the seen-set passes through
de-duplication unchanged. -/
theorem dedupAux_eq_self :
    ∀ (seen : List String) (l : List Document),
      (l.map uniqueKey).Nodup → (∀ d ∈ l, uniqueKey d ∉ seen) →
      dedupAux seen l = l := by
  intro seen l
  induction l generalizing seen with
  | nil => intro _ _; simp [dedupAux]
  | cons d rest ih =>
    intro hnd hfresh
    rw [List.map_cons] at hnd
    obtain ⟨hd, hrest⟩ := List.nodup_cons.mp hnd
    have hcont : seen.contains (uniqueKey d) = false := by
      simpa using hfresh d (List.mem_cons_self _ _)
    simp only [dedupAux, hcont]
    rw [if_neg (by simp)]
    congr 1
    refine ih (uniqueKey d :: seen) hrest ?_
    intro x hx
    intro hmem
    rcases List.mem_cons.mp hmem with h | h
    · exact hd (h ▸ List.mem_map_of_mem uniqueKey hx)
    · exact hfresh x (List.mem_cons_of_mem _ hx) h

/-- First occurrence wins: looking any key up in the de-duplicated list gives
exactly what looking it up in the raw list gives. -/
theorem dedupAux_find?_eq (k : String) :
    ∀ (seen : List String) (docs : List Document), k ∉ seen →
      (dedupAux seen docs).find? (fun d => uniqueKey d == k) =
        docs.find? (fun d => uniqueKey d == k) := by
  intro seen docs
  induction docs generalizing seen with
  | nil => intro _; simp [dedupAux]
  | cons d rest ih =>
    intro hk
    simp only [dedupAux]
    by_cases hkey : uniqueKey d = k
    · have hmemd : uniqueKey d ∉ seen := by rw [hkey]; exact hk
      rw [if_neg (by simpa using hmemd)]
      rw [List.find?_cons_of_pos _ (by simp [hkey]),
        List.find?_cons_of_pos _ (by simp [hkey])]
    · rw [List.find?_cons_of_neg _ (by simp [hkey])]
      split
      · exact ih seen hk
      · rw [List.find?_cons_of_neg _ (by simp [hkey])]
        refine ih (uniqueKey d :: seen) ?_
        intro hmem
        rcases List.mem_cons.mp hmem with h | h
        · exact hkey h.symm
        · exact hk h

/-! ## C4 — what the de-duplication key really is -/

/-- A document whose id itself contains a colon. -/
def docColonId : Document := ⟨"a:b", "T1", "", 0, 0, 0, 0, 0, 0, 0, "c"⟩

/-- A different document — different (id, collection id) pair — whose
concatenated key collides with `docColonId`'s. -/
def docColonCol : Document := ⟨"a", "T2", "", 0, 0, 0, 0, 0, 0, 0, "b:c"⟩

/-- De-duplication as the claim words it, keyed by the *pair*
(document id, collection id), first occurrence winning.  Used only to compare
the source's string-keyed de-duplication against the claim's wording. -/
def dedupByPairAux (seen : List (String × String)) : List Document → List Document
  | [] => []
  | d :: rest =>
    if seen.contains (d.ID, d.CollectionId) then dedupByPairAux seen rest
    else d :: dedupByPairAux ((d.ID, d.CollectionId) :: seen) rest

/-- Pair-keyed de-duplication of a whole list. -/
def dedupByPair (docs : List Document) : List Document := dedupByPairAux [] docs

/-- C4 counterexample: the code keys de-duplication by the concatenated string
`ID + ":" + CollectionId`, and that key identifies the two *distinct* pairs
("a:b", "c") and ("a", "b:c"): the source's de-duplication drops the second
document although its (document id, collection id) pair was never seen, so
de-duplication is not keyed by the pair. -/
theorem c4_counterexample_colon_key_collision :
    (docColonId.ID, docColonId.CollectionId) ≠ (docColonCol.ID, docColonCol.CollectionId) ∧
    uniqueKey docColonId = uniqueKey docColonCol ∧
    dedupDocs [docColonId, docColonCol] = [docColonId] ∧
    dedupByPair [docColonId, docColonCol] = [docColonId, docColonCol] := by
  refine ⟨by decide, rfl, rfl, rfl⟩

/-- C4 (amended): de-duplication is keyed by the concatenated string
`document id + ":" + collection id` (which agrees with the pair
(document id, collection id) only when no concatenation collision occurs);
with respect to that key it never grows the list, keeps the first-seen
instance's field values for every key, is idempotent, and the duplicate
warning is logged in `Collect` exactly when the raw count differs from the
unique count. -/
theorem dedup_by_string_key_properties (docs : List Document) :
    (dedupDocs docs).length ≤ docs.length ∧
    dedupDocs (dedupDocs docs) = dedupDocs docs ∧
    (∀ k : String, (dedupDocs docs).find? (fun d => uniqueKey d == k) =
      docs.find? (fun d => uniqueKey d == k)) ∧
    (∀ (now : Int) (eb : Nat) (dur : Int)
      (cres : List Collection × Option String) (derr : Option String)
      (ures : List User × Option String),
      ((collect now eb dur cres (docs, derr) ures).dupWarning = true ↔
        docs.length ≠ (dedupDocs docs).length)) := by
  refine ⟨dedupAux_length_le [] docs, ?_, ?_, ?_⟩
  · exact dedupAux_eq_self [] (dedupDocs docs) (dedupAux_keys_nodup [] docs)
      (by intro d _; simp)
  · intro k
    exact dedupAux_find?_eq k [] docs (by simp)
  · intro now eb dur cres derr ures
    simp only [collect]
    cases docs with
    | nil => simp [dedupDocs, dedupAux]
    | cons d rest =>
      simp only [List.length_cons, dedupDocs]
      constructor
      · intro h
        have := (Bool.and_eq_true _ _).mp h
        simpa using this.2
      · intro h
        refine (Bool.and_eq_true _ _).mpr ⟨by simp, ?_⟩
        simpa using h

/-! ## Structure of the emitted metric list -/

/-- The emitted metric list of one cycle, spelled out. -/
theorem collect_metrics_eq (now : Int) (eb : Nat) (dur : Int)
    (cres : List Collection × Option String) (dres : List Document × Option String)
    (ures : List User × Option String) :
    (collect now eb dur cres dres ures).metrics =
      (if cres.2.isNone && dres.2.isNone && ures.2.isNone then
        [Metric.up 1, Metric.scrapeSuccessTs now]
      else [Metric.up 0]) ++
      collectionBlock now cres.1 dres.1 ++ documentBlock now dres.1 ++
      userBlock now ures.1 ++
      [Metric.scrapeDuration dur, Metric.scrapeErrorsTotal
        (eb + (if cres.2.isSome then 1 else 0) + (if dres.2.isSome then 1 else 0) +
          (if ures.2.isSome then 1 else 0))] := rfl

/-- Everything in the collection block is a collection-family sample. -/
theorem mem_collectionBlock_shape {x : Metric} {now : Int} {cs : List Collection}
    {ds : List Document} (h : x ∈ collectionBlock now cs ds) :
    (∃ n, x = Metric.collectionsTotal n) ∨
    (∃ a b n, x = Metric.collectionDocumentsCount a b n) ∨
    (∃ a b v, x = Metric.collectionAge a b v) := by
  unfold collectionBlock at h
  split at h
  · rcases List.mem_cons.mp h with h | h
    · exact Or.inl ⟨_, h⟩
    · rcases List.mem_flatMap.mp h with ⟨c, _, hm⟩
      simp only [List.mem_cons, List.not_mem_nil, or_false] at hm
      rcases hm with h | h
      · exact Or.inr (Or.inl ⟨_, _, _, h⟩)
      · exact Or.inr (Or.inr ⟨_, _, _, h⟩)
  · simp at h

/-- Everything in the document block is a document-family sample. -/
theorem mem_documentBlock_shape {x : Metric} {now : Int} {ds : List Document}
    (h : x ∈ documentBlock now ds) :
    (∃ n, x = Metric.documentsTotal n) ∨
    (∃ a b n, x = Metric.documentRevisions a b n) ∨
    (∃ a b n, x = Metric.documentViews a b n) ∨
    (∃ a b v, x = Metric.documentAge a b v) ∨
    (∃ a b n, x = Metric.documentSize a b n) ∨
    (∃ a b v, x = Metric.documentUpdateAge a b v) := by
  unfold documentBlock at h
  split at h
  · rcases List.mem_cons.mp h with h | h
    · exact Or.inl ⟨_, h⟩
    · rcases List.mem_flatMap.mp h with ⟨d, _, hm⟩
      simp only [List.mem_cons, List.not_mem_nil, or_false] at hm
      rcases hm with h | h | h | h | h
      · exact Or.inr (Or.inl ⟨_, _, _, h⟩)
      · exact Or.inr (Or.inr (Or.inl ⟨_, _, _, h⟩))
      · exact Or.inr (Or.inr (Or.inr (Or.inl ⟨_, _, _, h⟩)))
      · exact Or.inr (Or.inr (Or.inr (Or.inr (Or.inl ⟨_, _, _, h⟩))))
      · exact Or.inr (Or.inr (Or.inr (Or.inr (Or.inr ⟨_, _, _, h⟩))))
  · simp at h

/-- Everything in the user block is a user-family sample. -/
theorem mem_userBlock_shape {x : Metric} {now : Int} {us : List User}
    (h : x ∈ userBlock now us) :
    (∃ n, x = Metric.usersTotal n) ∨
    (∃ a b v, x = Metric.userLastActive a b v) ∨
    (∃ a b v, x = Metric.userAge a b v) := by
  unfold userBlock at h
  split at h
  · rcases List.mem_cons.mp h with h | h
    · exact Or.inl ⟨_, h⟩
    · rcases List.mem_flatMap.mp h with ⟨u, _, hm⟩
      simp only [List.mem_cons, List.not_mem_nil, or_false] at hm
      rcases hm with h | h
      · exact Or.inr (Or.inl ⟨_, _, _, h⟩)
      · exact Or.inr (Or.inr ⟨_, _, _, h⟩)
  · simp at h

/-- The `up` sample never comes from an entity block. -/
theorem up_not_mem_collectionBlock (v : Int) (now : Int) (cs : List Collection)
    (ds : List Document) : Metric.up v ∉ collectionBlock now cs ds := by
  intro h
  rcases mem_collectionBlock_shape h with ⟨_, h⟩ | ⟨_, _, _, h⟩ | ⟨_, _, _, h⟩ <;> simp at h

/-- The `up` sample never comes from the document block. -/
theorem up_not_mem_documentBlock (v : Int) (now : Int) (ds : List Document) :
    Metric.up v ∉ documentBlock now ds := by
  intro h
  rcases mem_documentBlock_shape h with
    ⟨_, h⟩ | ⟨_, _, _, h⟩ | ⟨_, _, _, h⟩ | ⟨_, _, _, h⟩ | ⟨_, _, _, h⟩ | ⟨_, _, _, h⟩ <;>
    simp at h

/-- The `up` sample never comes from the user block. -/
theorem up_not_mem_userBlock (v : Int) (now : Int) (us : List User) :
    Metric.up v ∉ userBlock now us := by
  intro h
  rcases mem_userBlock_shape h with ⟨_, h⟩ | ⟨_, _, _, h⟩ | ⟨_, _, _, h⟩ <;> simp at h

/-- The success-timestamp sample never comes from an entity block. -/
theorem ts_not_mem_collectionBlock (t : Int) (now : Int) (cs : List Collection)
    (ds : List Document) : Metric.scrapeSuccessTs t ∉ collectionBlock now cs ds := by
  intro h
  rcases mem_collectionBlock_shape h with ⟨_, h⟩ | ⟨_, _, _, h⟩ | ⟨_, _, _, h⟩ <;> simp at h

/-- The success-timestamp sample never comes from the document block. -/
theorem ts_not_mem_documentBlock (t : Int) (now : Int) (ds : List Document) :
    Metric.scrapeSuccessTs t ∉ documentBlock now ds := by
  intro h
  rcases mem_documentBlock_shape h with
    ⟨_, h⟩ | ⟨_, _, _, h⟩ | ⟨_, _, _, h⟩ | ⟨_, _, _, h⟩ | ⟨_, _, _, h⟩ | ⟨_, _, _, h⟩ <;>
    simp at h

/-- The success-timestamp sample never comes from the user block. -/
theorem ts_not_mem_userBlock (t : Int) (now : Int) (us : List User) :
    Metric.scrapeSuccessTs t ∉ userBlock now us := by
  intro h
  rcases mem_userBlock_shape h with ⟨_, h⟩ | ⟨_, _, _, h⟩ | ⟨_, _, _, h⟩ <;> simp at h

/-- The collections-total sample never comes from the document block. -/
theorem colTotal_not_mem_documentBlock (n : Nat) (now : Int) (ds : List Document) :
    Metric.collectionsTotal n ∉ documentBlock now ds := by
  intro h
  rcases mem_documentBlock_shape h with
    ⟨_, h⟩ | ⟨_, _, _, h⟩ | ⟨_, _, _, h⟩ | ⟨_, _, _, h⟩ | ⟨_, _, _, h⟩ | ⟨_, _, _, h⟩ <;>
    simp at h

/-- The collections-total sample never comes from the user block. -/
theorem colTotal_not_mem_userBlock (n : Nat) (now : Int) (us : List User) :
    Metric.collectionsTotal n ∉ userBlock now us := by
  intro h
  rcases mem_userBlock_shape h with ⟨_, h⟩ | ⟨_, _, _, h⟩ | ⟨_, _, _, h⟩ <;> simp at h

/-- The documents-total sample never comes from the collection block. -/
theorem docTotal_not_mem_collectionBlock (n : Nat) (now : Int) (cs : List Collection)
    (ds : List Document) : Metric.documentsTotal n ∉ collectionBlock now cs ds := by
  intro h
  rcases mem_collectionBlock_shape h with ⟨_, h⟩ | ⟨_, _, _, h⟩ | ⟨_, _, _, h⟩ <;> simp at h

/-- The documents-total sample never comes from the user block. -/
theorem docTotal_not_mem_userBlock (n : Nat) (now : Int) (us : List User) :
    Metric.documentsTotal n ∉ userBlock now us := by
  intro h
  rcases mem_userBlock_shape h with ⟨_, h⟩ | ⟨_, _, _, h⟩ | ⟨_, _, _, h⟩ <;> simp at h

/-- The users-total sample never comes from the collection block. -/
theorem usersTotal_not_mem_collectionBlock (n : Nat) (now : Int) (cs : List Collection)
    (ds : List Document) : Metric.usersTotal n ∉ collectionBlock now cs ds := by
  intro h
  rcases mem_collectionBlock_shape h with ⟨_, h⟩ | ⟨_, _, _, h⟩ | ⟨_, _, _, h⟩ <;> simp at h

/-- The users-total sample never comes from the document block. -/
theorem usersTotal_not_mem_documentBlock (n : Nat) (now : Int) (ds : List Document) :
    Metric.usersTotal n ∉ documentBlock now ds := by
  intro h
  rcases mem_documentBlock_shape h with
    ⟨_, h⟩ | ⟨_, _, _, h⟩ | ⟨_, _, _, h⟩ | ⟨_, _, _, h⟩ | ⟨_, _, _, h⟩ | ⟨_, _, _, h⟩ <;>
    simp at h

/-! ## C7 — orchestration: error counting, up sample, success timestamp -/

/-- C7: in every `Collect` cycle the three fetches are issued unconditionally
in source order (collections, documents, users — the last conjunct spells out
that each kind's result in `collectRun` comes from its own endpoint whatever
the others did); each failed fetch adds exactly 1 to the cumulative error
counter and forces the success flag false; the `up` sample is 1 iff all three
fetches succeeded, 0 otherwise; and a last-success-timestamp sample is
emitted iff all three succeeded. -/
theorem collect_orchestration (now : Int) (eb : Nat) (dur : Int)
    (cres : List Collection × Option String) (dres : List Document × Option String)
    (ures : List User × Option String) :
    ((collect now eb dur cres dres ures).errorsTotal =
      eb + (if cres.2.isSome then 1 else 0) + (if dres.2.isSome then 1 else 0) +
        (if ures.2.isSome then 1 else 0)) ∧
    ((collect now eb dur cres dres ures).success = true ↔
      (cres.2 = none ∧ dres.2 = none ∧ ures.2 = none)) ∧
    (Metric.up 1 ∈ (collect now eb dur cres dres ures).metrics ↔
      (cres.2 = none ∧ dres.2 = none ∧ ures.2 = none)) ∧
    (Metric.up 0 ∈ (collect now eb dur cres dres ures).metrics ↔
      ¬(cres.2 = none ∧ dres.2 = none ∧ ures.2 = none)) ∧
    ((∃ t, Metric.scrapeSuccessTs t ∈ (collect now eb dur cres dres ures).metrics) ↔
      (cres.2 = none ∧ dres.2 = none ∧ ures.2 = none)) ∧
    (∀ (cfg : Config) (srvC : Server Collection) (srvD : Server Document)
      (srvU : Server User),
      collectRun cfg srvC srvD srvU now eb dur =
        collect now eb dur (fetchAllTotal cfg srvC "/api/collections.list")
          (fetchAllTotal cfg srvD "/api/documents.list")
          (fetchAllTotal cfg srvU "/api/users.list")) := by
  by_cases hs : (cres.2.isNone && dres.2.isNone && ures.2.isNone) = true
  · have hcond : cres.2 = none ∧ dres.2 = none ∧ ures.2 = none := by
      simp only [Bool.and_eq_true, Option.isNone_iff_eq_none] at hs
      exact ⟨hs.1.1, hs.1.2, hs.2⟩
    obtain ⟨h1, h2, h3⟩ := hcond
    refine ⟨rfl, ?_, ?_, ?_, ?_, fun _ _ _ _ => rfl⟩
    · simp [collect, hs, h1, h2, h3]
    · simp [collect_metrics_eq, hs, List.mem_append, up_not_mem_collectionBlock,
        up_not_mem_documentBlock, up_not_mem_userBlock, h1, h2, h3]
    · simp [collect_metrics_eq, hs, List.mem_append, up_not_mem_collectionBlock,
        up_not_mem_documentBlock, up_not_mem_userBlock, h1, h2, h3]
    · constructor
      · intro _; exact ⟨h1, h2, h3⟩
      · intro _
        refine ⟨now, ?_⟩
        simp [collect_metrics_eq, hs]
  · have hcond : ¬(cres.2 = none ∧ dres.2 = none ∧ ures.2 = none) := by
      intro ⟨h1, h2, h3⟩
      exact hs (by simp [h1, h2, h3])
    refine ⟨rfl, ?_, ?_, ?_, ?_, fun _ _ _ _ => rfl⟩
    · constructor
      · intro h
        exact absurd (by simpa [collect] using h) hs
      · intro h; exact absurd h hcond
    · constructor
      · intro h
        rw [collect_metrics_eq] at h
        rw [if_neg hs] at h
        rcases List.mem_append.mp h with h | h
        · rcases List.mem_append.mp h with h | h
          · rcases List.mem_append.mp h with h | h
            · rcases List.mem_append.mp h with h | h
              · simp at h
              · exact absurd h (up_not_mem_collectionBlock _ _ _ _)
            · exact absurd h (up_not_mem_documentBlock _ _ _)
          · exact absurd h (up_not_mem_userBlock _ _ _)
        · simp at h
      · intro h; exact absurd h hcond
    · constructor
      · intro _; exact hcond
      · intro _
        rw [collect_metrics_eq, if_neg hs]
        simp
    · constructor
      · rintro ⟨t, h⟩
        rw [collect_metrics_eq, if_neg hs] at h
        rcases List.mem_append.mp h with h | h
        · rcases List.mem_append.mp h with h | h
          · rcases List.mem_append.mp h with h | h
            · rcases List.mem_append.mp h with h | h
              · simp at h
              · exact absurd h (ts_not_mem_collectionBlock _ _ _ _)
            · exact absurd h (ts_not_mem_documentBlock _ _ _)
          · exact absurd h (ts_not_mem_userBlock _ _ _)
        · simp at h
      · intro h; exact absurd h hcond

/-! ## C2 — which documents the per-collection counts tally -/

/-- Filtering by a disjunction of disjoint predicates splits the count. -/
theorem length_filter_or_of_disjoint {p q : Document → Bool}
    (hdisj : ∀ d, p d = true → q d = false) :
    ∀ docs : List Document,
      (docs.filter (fun d => p d || q d)).length =
        (docs.filter p).length + (docs.filter q).length := by
  intro docs
  induction docs with
  | nil => simp
  | cons d rest ih =>
    cases hp : p d with
    | true =>
      have hq := hdisj d hp
      simp [List.filter_cons, hp, hq, ih]
      omega
    | false =>
      cases hq : q d with
      | true =>
        simp [List.filter_cons, hp, hq, ih]
        omega
      | false =>
        simp [List.filter_cons, hp, hq, ih]

/-- With pairwise-distinct collection ids, the per-collection tallies of a
document list sum to the number of documents matching a present collection. -/
theorem documentCounts_sum (documents : List Document) :
    ∀ collections : List Collection, (collections.map Collection.ID).Nodup →
      (collections.map (fun c => documentCounts documents c.ID)).sum =
        (documents.filter
          (fun d => collections.any (fun c => d.CollectionId == c.ID))).length := by
  intro collections
  induction collections with
  | nil => intro _; simp [documentCounts]
  | cons c cs ih =>
    intro hnd
    rw [List.map_cons] at hnd
    obtain ⟨hc, hcs⟩ := List.nodup_cons.mp hnd
    simp only [List.map_cons, List.sum_cons, List.any_cons]
    rw [length_filter_or_of_disjoint (p := fun d => d.CollectionId == c.ID)
      (q := fun d => cs.any (fun c' => d.CollectionId == c'.ID)) ?disj documents]
    · rw [ih hcs]
      rfl
    case disj =>
      intro d hp
      by_contra hq
      rw [Bool.not_eq_false] at hq
      rcases List.any_eq_true.mp hq with ⟨c', hc', hmatch⟩
      have h1 : d.CollectionId = c.ID := by simpa using hp
      have h2 : d.CollectionId = c'.ID := by simpa using hmatch
      exact hc (h1 ▸ h2 ▸ List.mem_map_of_mem Collection.ID hc')

/-- Every present collection's count sample is emitted (a zero count
included). -/
theorem mem_collectionBlock_counts (now : Int) (collections : List Collection)
    (documents : List Document) (c : Collection) (hc : c ∈ collections) :
    Metric.collectionDocumentsCount c.ID c.Name (documentCounts documents c.ID) ∈
      collectionBlock now collections documents := by
  unfold collectionBlock
  rw [if_pos]
  · refine List.mem_cons_of_mem _ ?_
    refine List.mem_flatMap.mpr ⟨c, hc, ?_⟩
    simp
  · cases collections with
    | nil => simp at hc
    | cons _ _ => simp

/-- The collection with id "c1" used in the aggregation examples. -/
def colC1 : Collection := ⟨"c1", "N", "", 0, 0⟩

/-- A document owned by collection "c1"; used twice to form a duplicate. -/
def dupDoc : Document := ⟨"d1", "T", "x", 0, 0, 0, 0, 0, 0, 0, "c1"⟩

/-- C2 counterexample: with the duplicated document fed twice, the emitted
per-collection count for "c1" is 2 — the tally of the RAW list — while the
de-duplicated list has exactly 1 document in "c1"; the sample the claim
predicts (count 1) is not emitted.  So the counts are not tallies of the
de-duplicated documents. -/
theorem c2_counterexample_counts_use_raw_documents :
    dedupDocs [dupDoc, dupDoc] = [dupDoc] ∧
    ((dedupDocs [dupDoc, dupDoc]).filter (fun d => d.CollectionId == "c1")).length = 1 ∧
    Metric.collectionDocumentsCount "c1" "N" 2 ∈
      (collect 0 0 0 ([colC1], none) ([dupDoc, dupDoc], none) ([], none)).metrics ∧
    Metric.collectionDocumentsCount "c1" "N" 1 ∉
      (collect 0 0 0 ([colC1], none) ([dupDoc, dupDoc], none) ([], none)).metrics := by
  refine ⟨rfl, rfl, ?_, ?_⟩ <;> decide

/-- C2 (amended): the per-collection document counts emitted by `Collect` are
tallies of the *raw* (pre-de-duplication) document list by owning collection
id; every present collection gets its sample, a collection with zero matching
documents being emitted with count 0; and, for pairwise-distinct collection
ids, the counts sum over all present collections to the number of raw
documents whose collection id matches a present collection. -/
theorem collect_counts_raw_documents (now : Int) (eb : Nat) (dur : Int)
    (collections : List Collection) (cerr : Option String)
    (documents : List Document) (derr : Option String)
    (ures : List User × Option String)
    (hnd : (collections.map Collection.ID).Nodup) :
    (∀ c ∈ collections,
      Metric.collectionDocumentsCount c.ID c.Name (documentCounts documents c.ID) ∈
        (collect now eb dur (collections, cerr) (documents, derr) ures).metrics) ∧
    (collections.map (fun c => documentCounts documents c.ID)).sum =
      (documents.filter
        (fun d => collections.any (fun c => d.CollectionId == c.ID))).length := by
  constructor
  · intro c hc
    rw [collect_metrics_eq]
    refine List.mem_append.mpr (Or.inl ?_)
    refine List.mem_append.mpr (Or.inl ?_)
    refine List.mem_append.mpr (Or.inl ?_)
    refine List.mem_append.mpr (Or.inr ?_)
    exact mem_collectionBlock_counts now collections documents c hc
  · exact documentCounts_sum documents collections hnd

/-- C2 witness: concrete scrape with one collection and a duplicated document;
the emitted count is the raw tally 2 and the sum identity holds. -/
theorem collect_counts_raw_documents_witness :
    Metric.collectionDocumentsCount "c1" "N" (documentCounts [dupDoc, dupDoc] "c1") ∈
      (collect 0 0 0 ([colC1], none) ([dupDoc, dupDoc], none) ([], none)).metrics ∧
    ([colC1].map (fun c => documentCounts [dupDoc, dupDoc] c.ID)).sum =
      ([dupDoc, dupDoc].filter
        (fun d => [colC1].any (fun c => d.CollectionId == c.ID))).length := by
  have h := collect_counts_raw_documents 0 0 0 [colC1] none [dupDoc, dupDoc] none
    ([], none) (by decide)
  exact ⟨h.1 colC1 (List.mem_cons_self _ _), h.2⟩

/-! ## C9 — emission policy -/

/-- Recognises a per-document revision sample. -/
def isDocRevisionSample : Metric → Bool
  | Metric.documentRevisions _ _ _ => true
  | _ => false

/-- Whatever the head block is, it only holds `up`/timestamp samples. -/
theorem head_metric_shape {x : Metric} {b : Bool} {now : Int}
    (h : x ∈ (if b then [Metric.up 1, Metric.scrapeSuccessTs now]
      else [Metric.up 0])) :
    (∃ v, x = Metric.up v) ∨ (∃ t, x = Metric.scrapeSuccessTs t) := by
  split at h <;> simp only [List.mem_cons, List.not_mem_nil, or_false] at h
  · rcases h with h | h
    · exact Or.inl ⟨_, h⟩
    · exact Or.inr ⟨_, h⟩
  · exact Or.inl ⟨_, h⟩

/-- The five per-document samples contribute exactly one revision sample per
document. -/
theorem flatMap_docSamples_rev_count (now : Int) :
    ∀ l : List Document,
      ((l.flatMap (fun d =>
        [Metric.documentRevisions d.ID d.CollectionId d.Revision,
         Metric.documentViews d.ID d.CollectionId d.Views,
         Metric.documentAge d.ID d.CollectionId (now - d.CreatedAt),
         Metric.documentSize d.ID d.CollectionId d.Text.utf8ByteSize,
         Metric.documentUpdateAge d.ID d.CollectionId (now - d.UpdatedAt)])).filter
        isDocRevisionSample).length = l.length := by
  intro l
  induction l with
  | nil => simp
  | cons d rest ih =>
    rw [List.flatMap_cons, List.filter_append]
    simp [isDocRevisionSample, ih]

/-- The document block carries exactly one revision sample per de-duplicated
document. -/
theorem documentBlock_rev_count (now : Int) (ds : List Document) :
    ((documentBlock now ds).filter isDocRevisionSample).length =
      (dedupDocs ds).length := by
  unfold documentBlock
  split
  · rw [List.filter_cons]
    rw [if_neg (by simp [isDocRevisionSample])]
    exact flatMap_docSamples_rev_count now (dedupDocs ds)
  · rename_i h
    have hds : ds = [] := by
      cases ds with
      | nil => rfl
      | cons _ _ => simp at h
    simp [hds, dedupDocs, dedupAux]

/-- The collection block holds no per-document revision sample. -/
theorem collectionBlock_rev_filter_nil (now : Int) (cs : List Collection)
    (ds : List Document) :
    (collectionBlock now cs ds).filter isDocRevisionSample = [] := by
  rw [List.filter_eq_nil_iff]
  intro x hx
  rcases mem_collectionBlock_shape hx with ⟨_, h⟩ | ⟨_, _, _, h⟩ | ⟨_, _, _, h⟩ <;>
    subst h <;> simp [isDocRevisionSample]

/-- The user block holds no per-document revision sample. -/
theorem userBlock_rev_filter_nil (now : Int) (us : List User) :
    (userBlock now us).filter isDocRevisionSample = [] := by
  rw [List.filter_eq_nil_iff]
  intro x hx
  rcases mem_userBlock_shape hx with ⟨_, h⟩ | ⟨_, _, _, h⟩ | ⟨_, _, _, h⟩ <;>
    subst h <;> simp [isDocRevisionSample]

/-- C9 (amended): a metric family for an entity kind is emitted iff that
kind's list — as returned by `fetchAll`, and possibly a non-empty partial list
on failure — is non-empty; per-document samples are emitted once per
de-duplicated document; a fetch failing on its FIRST page yields an empty
list for its kind (family absent), while a fetch failing on a later page
returns its partial items, which are emitted like any non-empty list. -/
theorem collect_emission_policy (now : Int) (eb : Nat) (dur : Int)
    (cres : List Collection × Option String) (dres : List Document × Option String)
    (ures : List User × Option String) :
    ((∃ n, Metric.collectionsTotal n ∈
      (collect now eb dur cres dres ures).metrics) ↔ cres.1 ≠ []) ∧
    ((∃ n, Metric.documentsTotal n ∈
      (collect now eb dur cres dres ures).metrics) ↔ dres.1 ≠ []) ∧
    ((∃ n, Metric.usersTotal n ∈
      (collect now eb dur cres dres ures).metrics) ↔ ures.1 ≠ []) ∧
    (((collect now eb dur cres dres ures).metrics.filter isDocRevisionSample).length =
      (dedupDocs dres.1).length) ∧
    (∀ (α : Type) (cfg : Config) (srv : Server α) (path : String) (e : String),
      serverFetch srv path = Except.error e →
      fetchAllTotal cfg srv path = ([], some ("fetch first page: " ++ e))) := by
  refine ⟨?_, ?_, ?_, ?_, ?_⟩
  · cases hcs : cres.1 with
    | nil =>
      simp only [hcs, ne_eq, not_true_eq_false, iff_false, not_exists]
      intro n h
      rw [collect_metrics_eq, hcs] at h
      rcases List.mem_append.mp h with h | h
      · rcases List.mem_append.mp h with h | h
        · rcases List.mem_append.mp h with h | h
          · rcases List.mem_append.mp h with h | h
            · rcases head_metric_shape h with ⟨_, h⟩ | ⟨_, h⟩ <;> simp at h
            · unfold collectionBlock at h
              simp at h
          · exact colTotal_not_mem_documentBlock _ _ _ h
        · exact colTotal_not_mem_userBlock _ _ _ h
      · simp at h
    | cons c cs =>
      constructor
      · intro _
        simp [hcs]
      · intro _
        refine ⟨(c :: cs).length, ?_⟩
        rw [collect_metrics_eq, hcs]
        refine List.mem_append.mpr (Or.inl ?_)
        refine List.mem_append.mpr (Or.inl ?_)
        refine List.mem_append.mpr (Or.inl ?_)
        refine List.mem_append.mpr (Or.inr ?_)
        unfold collectionBlock
        rw [if_pos (by simp)]
        exact List.mem_cons_self _ _
  · cases hds : dres.1 with
    | nil =>
      simp only [hds, ne_eq, not_true_eq_false, iff_false, not_exists]
      intro n h
      rw [collect_metrics_eq, hds] at h
      rcases List.mem_append.mp h with h | h
      · rcases List.mem_append.mp h with h | h
        · rcases List.mem_append.mp h with h | h
          · rcases List.mem_append.mp h with h | h
            · rcases head_metric_shape h with ⟨_, h⟩ | ⟨_, h⟩ <;> simp at h
            · exact docTotal_not_mem_collectionBlock _ _ _ _ h
          · unfold documentBlock at h
            simp at h
        · exact docTotal_not_mem_userBlock _ _ _ h
      · simp at h
    | cons d rest =>
      constructor
      · intro _
        simp [hds]
      · intro _
        refine ⟨(dedupDocs (d :: rest)).length, ?_⟩
        rw [collect_metrics_eq, hds]
        refine List.mem_append.mpr (Or.inl ?_)
        refine List.mem_append.mpr (Or.inl ?_)
        refine List.mem_append.mpr (Or.inr ?_)
        unfold documentBlock
        rw [if_pos (by simp)]
        exact List.mem_cons_self _ _
  · cases hus : ures.1 with
    | nil =>
      simp only [hus, ne_eq, not_true_eq_false, iff_false, not_exists]
      intro n h
      rw [collect_metrics_eq, hus] at h
      rcases List.mem_append.mp h with h | h
      · rcases List.mem_append.mp h with h | h
        · rcases List.mem_append.mp h with h | h
          · rcases List.mem_append.mp h with h | h
            · rcases head_metric_shape h with ⟨_, h⟩ | ⟨_, h⟩ <;> simp at h
            · exact usersTotal_not_mem_collectionBlock _ _ _ _ h
          · exact usersTotal_not_mem_documentBlock _ _ _ h
        · unfold userBlock at h
          simp at h
      · simp at h
    | cons u rest =>
      constructor
      · intro _
        simp [hus]
      · intro _
        refine ⟨(u :: rest).length, ?_⟩
        rw [collect_metrics_eq, hus]
        refine List.mem_append.mpr (Or.inl ?_)
        refine List.mem_append.mpr (Or.inr ?_)
        unfold userBlock
        rw [if_pos (by simp)]
        exact List.mem_cons_self _ _
  · rw [collect_metrics_eq]
    rw [List.filter_append, List.filter_append, List.filter_append,
      List.filter_append]
    rw [List.length_append, List.length_append, List.length_append,
      List.length_append]
    rw [collectionBlock_rev_filter_nil, userBlock_rev_filter_nil,
      documentBlock_rev_count]
    have hhead : ((if cres.2.isNone && dres.2.isNone && ures.2.isNone then
        [Metric.up 1, Metric.scrapeSuccessTs now]
      else [Metric.up 0]).filter isDocRevisionSample) = [] := by
      split <;> simp [isDocRevisionSample]
    rw [hhead]
    simp [isDocRevisionSample]
  · intro α cfg srv path e h
    unfold fetchAllTotal fetchAllRun
    simp only [h]

/-- Server whose documents list page advertises a continuation the server
does not serve: the fetch fails on page 2 with one document accumulated. -/
def srvDocTruncated : Server Document :=
  [("/api/documents.list", Except.ok ⟨[dupDoc], ⟨1, 0, "/p2"⟩⟩)]

/-- C9 counterexample: the documents fetch FAILS (error is present), yet the
obtained list is the non-empty partial list `[dupDoc]`, and the documents
family IS emitted for the cycle — contradicting the claim that a failed fetch
yields an empty list whose family is absent. -/
theorem c9_counterexample_failed_fetch_not_empty :
    (fetchAllTotal cfgTest srvDocTruncated "/api/documents.list").2.isSome = true ∧
    (fetchAllTotal cfgTest srvDocTruncated "/api/documents.list").1 = [dupDoc] ∧
    Metric.documentsTotal 1 ∈
      (collectRun cfgTest [] srvDocTruncated [] 0 0 0).metrics := by
  refine ⟨rfl, rfl, by decide⟩

/-- C9 witness: the family-iff-non-empty equivalences at a concrete cycle, and
a first-page failure yielding the empty list with the wrapped error. -/
theorem collect_emission_policy_witness :
    ((∃ n, Metric.collectionsTotal n ∈
      (collect 0 0 0 ([colC1], none) ([dupDoc], none) ([], none)).metrics) ↔
        ([colC1] : List Collection) ≠ []) ∧
    fetchAllTotal cfgTest ([] : Server Document) "/x" =
      ([], some "fetch first page: connection refused") := by
  have h := collect_emission_policy 0 0 0 ([colC1], none) ([dupDoc], none) ([], none)
  exact ⟨h.1, h.2.2.2.2 Document cfgTest [] "/x" "connection refused" rfl⟩

end OutlineExporter
